import Mathlib

/-!
Verification of the befunge-exec core against its specification.

A shallow embedding of the core of the `befunge-exec` repository
(`src/core.rs`, `src/space.rs`, `src/interpreter.rs`, `src/io.rs`,
`src/terminal.rs`, `src/debugger.rs`, `src/analyze.rs`, `src/record.rs`),
together with theorems settling the specification claims about it.

Modelling conventions:
* Machine integers are modelled as `Nat`/`Int` with explicit `% 2 ^ w`
  reductions wherever the Rust code wraps (`Wrapping<i32>`, `as u8` casts).
  Unchecked `u8` additions that can only overflow transiently
  (`x + 1` in `Space::move_pos`) are modelled with release-mode wrapping
  semantics, i.e. `% 256`; the claims proved below always add hypotheses
  that keep those additions in range.
* Fallible Rust code (panics: division by zero in `Wrapping<i32>`, `usize`
  underflow) is modelled with `Option`: `none` is a panic.
* The `Record` capability (src/record.rs) is modelled as an append-only
  call log, one constructor per trait method; the interpreter appends to
  it exactly where the Rust code invokes the recorder.
* The interpreter's IO capability is instantiated with the `VecIO`
  implementation from src/io.rs (an input byte deque and an output byte
  buffer), which is the instantiation used by the debugger.
-/

/-- src/core.rs `Direction`. -/
inductive Direction where
  | Up
  | Down
  | Left
  | Right
deriving DecidableEq, Repr

/-- src/core.rs `Mode`. -/
inductive Mode where
  | Quote
  | Normal
deriving DecidableEq, Repr

/-- src/core.rs `Position`: `x`, `y` are `u8` in the source; we use `Nat`
with the `u8` range handled by explicit `% 256` at the operations that
cast or wrap. -/
structure Position where
  x : Nat
  y : Nat
deriving DecidableEq, Repr

/-- src/core.rs `Position::ORIGIN`. -/
def Position.ORIGIN : Position := ⟨0, 0⟩

/-- src/core.rs `Cursor`. -/
structure Cursor where
  pos : Position
  dir : Direction
  mode : Mode
deriving DecidableEq, Repr

/-- Initial cursor (`Cursor::default()`): origin, heading Right, Normal. -/
def Cursor.default : Cursor := ⟨Position.ORIGIN, Direction.Right, Mode.Normal⟩

/-- Modelled from the spec: `GridCell` is declared in the repository's
`core` module but its definition is not under src/ (only its uses are);
the spec says "GridCell. A byte (default = ASCII space)" and every use in
src/ pattern-matches its single `u8` field.  We model it as a byte value
carried in a `Nat`. -/
abbrev GridCell := Nat

/-- Modelled from the spec: `StackCell` is declared in the repository's
`core` module but its definition is not under src/.  The spec says it is
"a signed integer wide enough to hold arithmetic results"; the constructor
calls `StackCell(input_number as i32)` and `StackCell(input as i32)` in
src/interpreter.rs pin its field to `i32`.  We model it as an `Int`
carrying the `i32` value, with wrapping reductions made explicit at the
arithmetic. -/
abbrev StackCell := Int

/-- src/space.rs `Space`.  The source keeps a dense `Grid` plus a sparse
`HashMap` overflow; for `get_cell`/`set_cell` (the operations the claims
use) the pair behaves exactly as a total function from positions to cells
(dense cells are all materialised with the default, sparse misses read as
default), so the two stores are modelled by one total function. -/
structure Space where
  cells : Position → GridCell
  rows : Nat
  cols : Nat

/-- Default grid cell: ASCII space (src/core.rs `Cell::default`). -/
def defaultCell : GridCell := 32

/-- src/space.rs `Space::get_cell` (total read, default for unwritten). -/
def Space.get_cell (s : Space) (pos : Position) : GridCell := s.cells pos

/-- src/space.rs `Space::set_cell`: write, then extend the recorded extent
to cover `pos + 1` in both axes. -/
def Space.set_cell (s : Space) (pos : Position) (cell : GridCell) : Space :=
  { cells := fun q => if q = pos then cell else s.cells q
    rows := max s.rows (pos.y + 1)
    cols := max s.cols (pos.x + 1) }

/-- src/space.rs `Space::with_size`: all cells default. -/
def Space.with_size (rows cols : Nat) : Space :=
  { cells := fun _ => 0, rows := rows, cols := cols }

/-- src/space.rs `Space::move_pos`.  `self.cols as u8` / `self.rows as u8`
are the explicit `% 256` reductions; the `x + 1` / `y + 1` `u8` additions
are modelled with wrapping (`% 256`). -/
def Space.move_pos (s : Space) (pos : Position) (dir : Direction) : Position :=
  let cols := s.cols % 256
  let rows := s.rows % 256
  match dir with
  | Direction.Right =>
      let x := (pos.x + 1) % 256
      let x := if x ≥ cols then 0 else x
      ⟨x, pos.y⟩
  | Direction.Left =>
      let x := if pos.x = 0 then cols else pos.x - 1
      ⟨x, pos.y⟩
  | Direction.Up =>
      let y := if pos.y = 0 then rows else pos.y - 1
      ⟨pos.x, y⟩
  | Direction.Down =>
      let y := (pos.y + 1) % 256
      let y := if y ≥ rows then 0 else y
      ⟨pos.x, y⟩

/-- src/io.rs `try_combine`: decimal accumulation step with the byte
overflow guard (`SHIFT_MAX = 25`). -/
def tryCombine (old new : Nat) : Option Nat :=
  if old > 25 then none
  else
    let value := old * 10
    let remaining := 255 - value
    if new > remaining then none
    else some (value + new)

/-- ASCII decimal digit test (`matches!(byte, b'0'..=b'9')`). -/
def isDigitByte (b : Nat) : Bool := 48 ≤ b && b ≤ 57

/-- src/io.rs `base_number`: skip non-digits; on the first digit at
enumerate-index `i` return `(i + 1, digit value, rest of the input)`;
if the input ends first, fail with the count of bytes seen.  The second
argument threads the enumerate index. -/
def baseNumber : List Nat → Nat → Option (Nat × Nat × List Nat)
  | [], _ => none
  | b :: rest, i =>
      if isDigitByte b then some (i + 1, b - 48, rest)
      else baseNumber rest (i + 1)

/-- The loop of src/io.rs `try_read_number` after `base_number`:
consume further digits while `try_combine` succeeds, tracking
`(offset, num)`; `none` means the iterator ran off the end.
`i` is the enumerate index of the list head. -/
def numLoop : List Nat → Nat → Nat → Nat → Option (Nat × Nat)
  | [], _, _, _ => none
  | b :: rest, i, offset, num =>
      if isDigitByte b then
        match tryCombine num (b - 48) with
        | some n => numLoop rest (i + 1) (i + 1) n
        | none => some (offset, num)
      else some (offset, num)

/-- src/io.rs `try_read_number`: `Sum.inl (offset, num)` is
`Ok((offset, num))` (consume `offset` bytes, value `num`);
`Sum.inr skippable` is `Err(skippable)` (only `skippable` bytes may be
discarded). -/
def tryReadNumber (l : List Nat) : Sum (Nat × Nat) Nat :=
  match baseNumber l 0 with
  | none => Sum.inr l.length
  | some (offset, num, rest) =>
      match numLoop rest offset offset num with
      | some r => Sum.inl r
      | none => Sum.inr (offset - 1)

/-- src/terminal.rs `VirtualTerminal::read_number` restricted to its
`available_input` deque: returns the read value (if any) and the deque
after popping the consumed/skippable bytes. -/
def vtReadNumber (input : List Nat) : Option Nat × List Nat :=
  match tryReadNumber input with
  | Sum.inl (skip, n) => (some n, input.drop skip)
  | Sum.inr skip => (none, input.drop skip)

/-- src/io.rs `VecIO::read_number`: on `Err` nothing is consumed and no
number is returned. -/
def vecReadNumber (input : List Nat) : Option (Nat × List Nat) :=
  match tryReadNumber input with
  | Sum.inl (offset, n) => some (n, input.drop offset)
  | Sum.inr _ => none

/-- src/interpreter.rs `Status`. -/
inductive InterpreterError where
  | InfiniteLoop
  | InvalidOpcode (op : Nat)
deriving DecidableEq, Repr

/-- src/interpreter.rs `Status`. -/
inductive Status where
  | Completed
  | Waiting
  | Terminated
  | Error (e : InterpreterError)
deriving DecidableEq, Repr

/-- One call on the `Record` capability (src/record.rs `Record` trait);
the recorder is modelled as the append-only log of these calls. -/
inductive Event where
  | startStep (pos : Position) (instruction : GridCell)
  | rollbackStep
  | commitStep
  | replace (pos : Position) (old new : GridCell)
  | pop (old : StackCell)
  | popBottom
  | push (new : StackCell)
  | enterQuote
  | exitQuote
deriving DecidableEq, Repr

/-- The `i32` wrapping reduction: the unique representative of `z` modulo
`2 ^ 32` in `[-2 ^ 31, 2 ^ 31)`. -/
def wrap32 (z : Int) : Int := (z + 2 ^ 31) % 2 ^ 32 - 2 ^ 31

/-- The Rust `as u8` truncation of an `i32` value (its low byte). -/
def toByte (z : Int) : Nat := (z % 256).toNat

/-- The bytes the `.` instruction writes: the decimal text of an `i32`
value followed by a single space. -/
def numberBytes (v : Int) : List Nat := (toString v).data.map Char.toNat ++ [32]

/-- src/interpreter.rs `Interpreter`, instantiated with the `VecIO`
implementation of the IO capability (src/io.rs: an input deque and an
output buffer of bytes) and the call-log model of the `Record`
capability. -/
structure Interpreter where
  space : Space
  cursor : Cursor
  stack : List StackCell
  input : List Nat
  output : List Nat
  events : List Event

/-- src/interpreter.rs `Interpreter::pop`: pop returns the top, or 0 with
a `pop_bottom` recorder call when the stack is empty. -/
def Interpreter.pop (i : Interpreter) : StackCell × Interpreter :=
  match i.stack with
  | top :: rest =>
      (top, { i with stack := rest, events := i.events ++ [Event.pop top] })
  | [] => (0, { i with events := i.events ++ [Event.popBottom] })

/-- src/interpreter.rs `Interpreter::push`: records, then pushes. -/
def Interpreter.push (i : Interpreter) (cell : StackCell) : Interpreter :=
  { i with stack := cell :: i.stack, events := i.events ++ [Event.push cell] }

/-- src/interpreter.rs `Interpreter::put`: record the replacement, then
write the cell. -/
def Interpreter.put (i : Interpreter) (pos : Position) (cell : GridCell) : Interpreter :=
  let old := i.space.get_cell pos
  { i with
      space := i.space.set_cell pos cell
      events := i.events ++ [Event.replace pos old cell] }

/-- src/interpreter.rs `Interpreter::move_auto`. -/
def Interpreter.move_auto (i : Interpreter) : Interpreter :=
  { i with cursor := { i.cursor with pos := i.space.move_pos i.cursor.pos i.cursor.dir } }

/-- src/interpreter.rs `Interpreter::step_quoted`: a closing quote exits
Quote mode (with an `exit_quote` recorder call); any other byte is pushed
RAW onto the stack (`self.stack.push`, not the recording `push` helper).
Always auto-advances and completes. -/
def Interpreter.step_quoted (i : Interpreter) (cell : GridCell) : Status × Interpreter :=
  let i :=
    if cell = 34 then
      { i with
          cursor := { i.cursor with mode := Mode.Normal }
          events := i.events ++ [Event.exitQuote] }
    else
      { i with stack := Int.ofNat cell :: i.stack }
  (Status.Completed, i.move_auto)

/-- The `match cell.0` dispatch of src/interpreter.rs
`Interpreter::step_unquoted`, before the final auto-advance.
`rnd` is the injected random direction used by `?`
(the source draws it from `rand::rng()`).
`none` models the divide-by-zero panic of `Wrapping<i32>` division and
remainder. -/
def Interpreter.dispatch_unquoted (i : Interpreter) (cell : GridCell) (rnd : Direction) :
    Option (Status × Interpreter) :=
  if cell = 43 then -- b'+'
    let r1 := i.pop
    let r2 := r1.2.pop
    some (Status.Completed, r2.2.push (wrap32 (r2.1 + r1.1)))
  else if cell = 45 then -- b'-'
    let upper := i.pop
    let lower := upper.2.pop
    some (Status.Completed, lower.2.push (wrap32 (lower.1 - upper.1)))
  else if cell = 42 then -- b'*'
    let r1 := i.pop
    let r2 := r1.2.pop
    some (Status.Completed, r2.2.push (wrap32 (r2.1 * r1.1)))
  else if cell = 47 then -- b'/'
    let upper := i.pop
    let lower := upper.2.pop
    if upper.1 = 0 then none
    else some (Status.Completed, lower.2.push (wrap32 (Int.tdiv lower.1 upper.1)))
  else if cell = 37 then -- b'%'
    let upper := i.pop
    let lower := upper.2.pop
    if upper.1 = 0 then none
    else some (Status.Completed, lower.2.push (wrap32 (Int.tmod lower.1 upper.1)))
  else if cell = 33 then -- b'!'
    let value := i.pop
    some (Status.Completed, value.2.push (if value.1 = 0 then 1 else 0))
  else if cell = 96 then -- backtick
    let upper := i.pop
    let lower := upper.2.pop
    some (Status.Completed, lower.2.push (if lower.1 > upper.1 then 1 else 0))
  else if cell = 62 then -- b'>'
    some (Status.Completed, { i with cursor := { i.cursor with dir := Direction.Right } })
  else if cell = 60 then -- b'<'
    some (Status.Completed, { i with cursor := { i.cursor with dir := Direction.Left } })
  else if cell = 94 then -- b'^'
    some (Status.Completed, { i with cursor := { i.cursor with dir := Direction.Up } })
  else if cell = 118 then -- b'v'
    some (Status.Completed, { i with cursor := { i.cursor with dir := Direction.Down } })
  else if cell = 63 then -- b'?'
    some (Status.Completed, { i with cursor := { i.cursor with dir := rnd } })
  else if cell = 95 then -- b'_'
    let value := i.pop
    let d := if value.1 = 0 then Direction.Right else Direction.Left
    some (Status.Completed, { value.2 with cursor := { value.2.cursor with dir := d } })
  else if cell = 124 then -- b'|'
    let value := i.pop
    let d := if value.1 = 0 then Direction.Down else Direction.Up
    some (Status.Completed, { value.2 with cursor := { value.2.cursor with dir := d } })
  else if cell = 34 then -- the quote byte
    some (Status.Completed,
      { i with
          cursor := { i.cursor with mode := Mode.Quote }
          events := i.events ++ [Event.enterQuote] })
  else if cell = 58 then -- b':'
    let value := i.pop
    some (Status.Completed, (value.2.push value.1).push value.1)
  else if cell = 92 then -- backslash
    let upper := i.pop
    let lower := upper.2.pop
    some (Status.Completed, (lower.2.push upper.1).push lower.1)
  else if cell = 36 then -- b'$'
    some (Status.Completed, (i.pop).2)
  else if cell = 46 then -- b'.'
    let value := i.pop
    some (Status.Completed, { value.2 with output := value.2.output ++ numberBytes value.1 })
  else if cell = 44 then -- b','
    let value := i.pop
    some (Status.Completed, { value.2 with output := value.2.output ++ [toByte value.1] })
  else if cell = 35 then -- b'#'
    some (Status.Completed, i.move_auto)
  else if cell = 103 then -- b'g'
    let upper := i.pop
    let lower := upper.2.pop
    let value := lower.2.space.get_cell ⟨toByte lower.1, toByte upper.1⟩
    some (Status.Completed, lower.2.push (Int.ofNat value))
  else if cell = 112 then -- b'p'
    let upper := i.pop
    let middle := upper.2.pop
    let lower := middle.2.pop
    some (Status.Completed, lower.2.put ⟨toByte middle.1, toByte upper.1⟩ (toByte lower.1))
  else if cell = 38 then -- b'&'
    match vecReadNumber i.input with
    | some (n, rest) => some (Status.Completed, { i with input := rest }.push (Int.ofNat n))
    | none => some (Status.Waiting, i)
  else if cell = 126 then -- b'~'
    match i.input with
    | b :: rest => some (Status.Completed, { i with input := rest }.push (Int.ofNat b))
    | [] => some (Status.Waiting, i)
  else if cell = 64 then -- b'@'
    some (Status.Terminated, i)
  else if cell = 48 then some (Status.Completed, i.push 0)
  else if cell = 49 then some (Status.Completed, i.push 1)
  else if cell = 50 then some (Status.Completed, i.push 2)
  else if cell = 51 then some (Status.Completed, i.push 3)
  else if cell = 52 then some (Status.Completed, i.push 4)
  else if cell = 53 then some (Status.Completed, i.push 5)
  else if cell = 54 then some (Status.Completed, i.push 6)
  else if cell = 55 then some (Status.Completed, i.push 7)
  else if cell = 56 then some (Status.Completed, i.push 8)
  else if cell = 57 then some (Status.Completed, i.push 9)
  else if cell = 32 then some (Status.Completed, i)
  else some (Status.Error (InterpreterError.InvalidOpcode cell), i)

/-- src/interpreter.rs `Interpreter::step_unquoted`: dispatch, then
auto-advance exactly when the status is `Completed` (the invalid-opcode
arm returns early, but its status is never `Completed`, so the final
`if status == Status::Completed` test gives the same function). -/
def Interpreter.step_unquoted (i : Interpreter) (cell : GridCell) (rnd : Direction) :
    Option (Status × Interpreter) :=
  match i.dispatch_unquoted cell rnd with
  | none => none
  | some (status, i') =>
      some (status, if status = Status.Completed then i'.move_auto else i')

/-- The loop of src/interpreter.rs `Interpreter::skip_spaces`, with fuel.
The fuel (65537, one more than the number of distinct `u8 × u8`
positions) is irrelevant to every orbit that returns to its start or
reaches a non-space cell; running out of fuel models the source looping
forever (a cycle of spaces that misses the start position), and is
reported as the same `InfiniteLoop` error. -/
def skipSpacesAux : Nat → Interpreter → Position → Option Status × Interpreter
  | 0, i, _ => (some (Status.Error InterpreterError.InfiniteLoop), i)
  | f + 1, i, start =>
      if i.space.get_cell i.cursor.pos ≠ defaultCell then (none, i)
      else
        let i := i.move_auto
        if i.cursor.pos = start then
          (some (Status.Error InterpreterError.InfiniteLoop), i)
        else skipSpacesAux f i start

/-- src/interpreter.rs `Interpreter::skip_spaces`. -/
def Interpreter.skip_spaces (i : Interpreter) : Option Status × Interpreter :=
  skipSpacesAux 65537 i i.cursor.pos

/-- src/interpreter.rs `Interpreter::step`: record `start_step`, dispatch
on the mode, run space-skipping when the (post-dispatch) mode is Normal —
returning its error directly if it reports one — and finally record
`rollback_step` for a `Waiting` status and `commit_step` otherwise. -/
def Interpreter.step (i : Interpreter) (rnd : Direction) : Option (Status × Interpreter) :=
  let cell := i.space.get_cell i.cursor.pos
  let i1 := { i with events := i.events ++ [Event.startStep i.cursor.pos cell] }
  let r : Option (Status × Interpreter) :=
    match i1.cursor.mode with
    | Mode.Quote => some (i1.step_quoted cell)
    | Mode.Normal => i1.step_unquoted cell rnd
  match r with
  | none => none
  | some (status, i2) =>
      let sk : Option Status × Interpreter :=
        if i2.cursor.mode = Mode.Normal then i2.skip_spaces else (none, i2)
      match sk with
      | (some st, i3) => some (st, i3)
      | (none, i3) =>
          if status = Status.Waiting then
            some (status, { i3 with events := i3.events ++ [Event.rollbackStep] })
          else
            some (status, { i3 with events := i3.events ++ [Event.commitStep] })

/-- src/terminal.rs `VirtualTerminal`. -/
structure VirtualTerminal where
  display : List Nat
  newline_indices : List Nat
  available_input : List Nat
  uncommitted : List Nat
  cursor : Nat
  dirty : Bool

/-- src/terminal.rs `VirtualTerminal::delete`: a no-op when the cursor is
at the end of the prompt; otherwise remove the byte at `cursor` and then
decrement `cursor`.  The decrement is an unchecked `usize` subtraction:
with `cursor = 0` it underflows (a panic in the source), modelled as
`none`. -/
def VirtualTerminal.delete (t : VirtualTerminal) : Option VirtualTerminal :=
  if t.cursor = t.uncommitted.length then some t
  else
    let uncommitted := t.uncommitted.eraseIdx t.cursor
    if t.cursor = 0 then none
    else some { t with uncommitted := uncommitted, cursor := t.cursor - 1, dirty := true }

/-- src/debugger.rs `State` (the debugger controller's run state). -/
inductive DebuggerState where
  | Paused
  | Stepping (steps : Nat)
  | Running
deriving DecidableEq, Repr

/-- src/debugger.rs `Debugger` (the fields `tick` uses; the timeline
recorder is folded into the interpreter's event log, and `program` /
`analysis` are not read by `tick`). -/
structure Debugger where
  interpreter : Interpreter
  breakpoints : List Position
  state : DebuggerState
  ticks_per_step : Nat
  ticks_since_step : Nat

/-- src/debugger.rs `Debugger::tick`.  Returns whether a step occurred,
paired with the new debugger.  Note the source calls
`self.interpreter.step(..)` and discards the returned status entirely.
`rnd` is the injected random direction for a possible `?` instruction.
The `steps - 1` in the `Stepping` arm is `Nat` subtraction (the source's
`u16` subtraction underflows for `steps = 0`, a state `tick` itself never
creates). -/
def Debugger.tick (d : Debugger) (rnd : Direction) : Option (Bool × Debugger) :=
  let d := { d with ticks_since_step := d.ticks_since_step + 1 }
  let time_for_step := d.ticks_since_step > d.ticks_per_step
  let sd : Bool × Debugger :=
    match d.state with
    | DebuggerState.Paused => (false, d)
    | DebuggerState.Stepping steps =>
        if steps = 1 then
          (time_for_step, if time_for_step then { d with state := DebuggerState.Paused } else d)
        else
          (time_for_step,
           if time_for_step then { d with state := DebuggerState.Stepping (steps - 1) } else d)
    | DebuggerState.Running => (time_for_step, d)
  let step_now := sd.1
  let d := sd.2
  if step_now then
    let d := { d with ticks_since_step := 0 }
    if d.breakpoints.contains d.interpreter.cursor.pos then
      some (true, { d with state := DebuggerState.Paused })
    else
      match d.interpreter.step rnd with
      | none => none
      | some (_, i') => some (true, { d with interpreter := i' })
  else some (false, d)

/-- A position with both coordinates in the `u8` range, the domain of the
path analyzer's cell states (src/core.rs `Position` is `u8 × u8`). -/
abbrev Pos8 := Fin 256 × Fin 256

def toPos (p : Pos8) : Position := ⟨p.1.val, p.2.val⟩

/-- The bit index of a `(direction, mode)` pair in src/analyze.rs
`State`: `QU=0b1, QD=0b10, QL=0b100, QR=0b1000, NU..NR` the high nibble. -/
def bitIndex : Direction → Mode → Fin 8
  | Direction.Up, Mode.Quote => 0
  | Direction.Down, Mode.Quote => 1
  | Direction.Left, Mode.Quote => 2
  | Direction.Right, Mode.Quote => 3
  | Direction.Up, Mode.Normal => 4
  | Direction.Down, Mode.Normal => 5
  | Direction.Left, Mode.Normal => 6
  | Direction.Right, Mode.Normal => 7

/-- src/analyze.rs `State::update`: OR in the mask of `(dir, mode)`. -/
def stateUpdate (s : Nat) (d : Direction) (m : Mode) : Nat := s ||| 2 ^ (bitIndex d m).val

/-- Moving with `Space::move_pos` keeps both coordinates in the `u8` range. -/
theorem move_pos_bounded (s : Space) (pos : Position) (d : Direction)
    (hx : pos.x < 256) (hy : pos.y < 256) :
    (s.move_pos pos d).x < 256 ∧ (s.move_pos pos d).y < 256 := by
  cases d <;> simp only [Space.move_pos] <;> split_ifs <;> constructor <;> omega

/-- The move operation on `u8 × u8` positions, with the range carried in the type
(the analyzer's queue lives in this domain). -/
def mv8 (s : Space) (p : Pos8) (d : Direction) : Pos8 :=
  (⟨(s.move_pos (toPos p) d).x,
      (move_pos_bounded s (toPos p) d p.1.isLt p.2.isLt).1⟩,
   ⟨(s.move_pos (toPos p) d).y,
      (move_pos_bounded s (toPos p) d p.1.isLt p.2.isLt).2⟩)

/-- Number of set bits among the 8 `(dir, mode)` flags of a cell state. -/
def bits8 (s : Nat) : Nat := ((Finset.range 8).filter (fun k => s.testBit k)).card

/-- Total missing flags over the whole `u8 × u8` position domain; the
strictly decreasing part of the analyzer's termination measure. -/
def missingBits (states : Space) : Nat :=
  Finset.univ.sum (fun p : Pos8 => 8 - bits8 (states.get_cell (toPos p)))

theorem lor_mask_eq_iff (s k : Nat) : s ||| 2 ^ k = s ↔ s.testBit k = true := by
  constructor
  · intro h
    have h2 := congrArg (fun t => t.testBit k) h
    simpa [Nat.testBit_or, Nat.testBit_two_pow_self] using h2
  · intro h
    apply Nat.eq_of_testBit_eq
    intro j
    rw [Nat.testBit_or]
    by_cases hj : j = k
    · subst hj; simp [h]
    · simp [Nat.testBit_two_pow_of_ne (fun hh => hj hh.symm)]

theorem bits8_le (s : Nat) : bits8 s ≤ 8 := by
  have h := Finset.card_filter_le (Finset.range 8) (fun k => s.testBit k)
  simpa [bits8] using h

theorem bits8_lor (s : Nat) (k : Fin 8) (h : s.testBit k.val = false) :
    bits8 (s ||| 2 ^ k.val) = bits8 s + 1 := by
  have hins : (Finset.range 8).filter (fun j => (s ||| 2 ^ k.val).testBit j)
      = insert k.val ((Finset.range 8).filter (fun j => s.testBit j)) := by
    ext j
    simp only [Finset.mem_filter, Finset.mem_insert, Finset.mem_range, Nat.testBit_or,
      Nat.testBit_two_pow, Bool.or_eq_true, decide_eq_true_eq]
    constructor
    · rintro ⟨hj, hb | hb⟩
      · exact Or.inr ⟨hj, hb⟩
      · exact Or.inl hb.symm
    · rintro (hb | ⟨hj, hb⟩)
      · exact ⟨hb ▸ k.isLt, Or.inr hb.symm⟩
      · exact ⟨hj, Or.inl hb⟩
  have hnot : k.val ∉ (Finset.range 8).filter (fun j => s.testBit j) := by
    simp [Finset.mem_filter, h]
  show ((Finset.range 8).filter (fun j => (s ||| 2 ^ k.val).testBit j)).card
      = ((Finset.range 8).filter (fun j => s.testBit j)).card + 1
  rw [hins, Finset.card_insert_of_not_mem hnot]

theorem bits8_lt_of_not_testBit (s : Nat) (k : Fin 8) (h : s.testBit k.val = false) :
    bits8 s < 8 := by
  have h1 := bits8_lor s k h
  have h2 := bits8_le (s ||| 2 ^ k.val)
  omega

theorem toPos_inj {a b : Pos8} (h : toPos a = toPos b) : a = b := by
  have hx : a.1.val = b.1.val := congrArg Position.x h
  have hy : a.2.val = b.2.val := congrArg Position.y h
  exact Prod.ext (Fin.ext hx) (Fin.ext hy)

theorem get_set_same (s : Space) (pos : Position) (c : GridCell) :
    (s.set_cell pos c).get_cell pos = c := by
  simp [Space.get_cell, Space.set_cell]

theorem get_set_other (s : Space) (pos q : Position) (c : GridCell) (h : q ≠ pos) :
    (s.set_cell pos c).get_cell q = s.get_cell q := by
  simp [Space.get_cell, Space.set_cell, h]

set_option maxRecDepth 4000 in
/-- Setting a fresh flag at a `u8 × u8` position strictly decreases the
total number of missing flags. -/
theorem missing_decrease (states : Space) (p : Pos8) (k : Fin 8)
    (h : (states.get_cell (toPos p)).testBit k.val = false) :
    missingBits (states.set_cell (toPos p) (states.get_cell (toPos p) ||| 2 ^ k.val))
      < missingBits states := by
  unfold missingBits
  apply Finset.sum_lt_sum
  · intro q _
    by_cases hq : q = p
    · subst hq
      have hb := bits8_lor (states.get_cell (toPos q)) k h
      rw [get_set_same]
      omega
    · rw [get_set_other _ _ _ _ (fun hc => hq (toPos_inj hc))]
  · refine ⟨p, Finset.mem_univ p, ?_⟩

    have hb := bits8_lor (states.get_cell (toPos p)) k h
    have hlt := bits8_lt_of_not_testBit (states.get_cell (toPos p)) k h
    rw [get_set_same]
    omega

attribute [irreducible] missingBits

/-- The "draw" mode of src/analyze.rs `analyze`: a quote cell always
shows as quoted. -/
def drawModeOf (cell : Nat) (mode : Mode) : Mode :=
  if cell = 34 then Mode.Quote else mode

/-- The successor mode of src/analyze.rs `analyze`: a quote cell flips
the mode. -/
def modeAfter (cell : Nat) (mode : Mode) : Mode :=
  if cell = 34 then
    match mode with
    | Mode.Quote => Mode.Normal
    | Mode.Normal => Mode.Quote
  else mode

/-- The tuples enqueued for one dequeued `(p, dir, mode)` after its state
update, from src/analyze.rs `analyze` (`forward`/`up`/`down`/`left`/
`right` inlined): in Quote mode always straight on; otherwise branch per
instruction (`^ v < > ? | _ #` and the terminal `@`). -/
def successors (space : Space) (p : Pos8) (dir : Direction) (mode' : Mode) (cell : Nat) :
    List (Pos8 × Direction × Mode) :=
  if mode' = Mode.Quote then [(mv8 space p dir, dir, mode')]
  else if cell = 94 then [(mv8 space p Direction.Up, Direction.Up, mode')]
  else if cell = 118 then [(mv8 space p Direction.Down, Direction.Down, mode')]
  else if cell = 60 then [(mv8 space p Direction.Left, Direction.Left, mode')]
  else if cell = 62 then [(mv8 space p Direction.Right, Direction.Right, mode')]
  else if cell = 63 then
    [(mv8 space p Direction.Up, Direction.Up, mode'),
     (mv8 space p Direction.Down, Direction.Down, mode'),
     (mv8 space p Direction.Left, Direction.Left, mode'),
     (mv8 space p Direction.Right, Direction.Right, mode')]
  else if cell = 124 then
    [(mv8 space p Direction.Up, Direction.Up, mode'),
     (mv8 space p Direction.Down, Direction.Down, mode')]
  else if cell = 95 then
    [(mv8 space p Direction.Left, Direction.Left, mode'),
     (mv8 space p Direction.Right, Direction.Right, mode')]
  else if cell = 35 then [(mv8 space (mv8 space p dir) dir, dir, mode')]
  else if cell = 64 then []
  else [(mv8 space p dir, dir, mode')]

set_option maxHeartbeats 1000000 in
theorem successors_length_le (space : Space) (p : Pos8) (dir : Direction)
    (mode' : Mode) (cell : Nat) : (successors space p dir mode' cell).length ≤ 4 := by
  unfold successors
  split_ifs <;> simp only [List.length_cons, List.length_nil] <;> omega

/-- The worklist loop of src/analyze.rs `PathAnalysisState::analyze`.
`log` is ghost instrumentation: it records, in order, each state update
(`self.states.set_cell`) the loop performs, as the updated position and
the `(dir, draw_mode)` bit it sets.  Termination is by the measure
`5 * missingBits states + queue.length`: an update strictly decreases the
missing-flag count and enqueues at most four successors, a no-new-bit
dequeue enqueues nothing and shortens the queue. -/
def analyzeAux (space : Space) (states : Space) (queue : List (Pos8 × Direction × Mode))
    (log : List (Pos8 × Fin 8)) : Space × List (Pos8 × Fin 8) :=
  match queue with
  | [] => (states, log)
  | (p, dir, mode) :: rest =>
      if hOld : states.get_cell (toPos p)
          = stateUpdate (states.get_cell (toPos p)) dir
              (drawModeOf (space.get_cell (toPos p)) mode) then
        analyzeAux space states rest log
      else
        analyzeAux space
          (states.set_cell (toPos p)
            (stateUpdate (states.get_cell (toPos p)) dir
              (drawModeOf (space.get_cell (toPos p)) mode)))
          (rest ++ successors space p dir (modeAfter (space.get_cell (toPos p)) mode)
            (space.get_cell (toPos p)))
          (log ++ [(p, bitIndex dir (drawModeOf (space.get_cell (toPos p)) mode))])
termination_by 5 * missingBits states + queue.length
decreasing_by
  · simp only [List.length_cons]
    omega
  · have hbit : (states.get_cell (toPos p)).testBit
        (bitIndex dir (drawModeOf (space.get_cell (toPos p)) mode)).val = false := by
      rcases hb : (states.get_cell (toPos p)).testBit
          (bitIndex dir (drawModeOf (space.get_cell (toPos p)) mode)).val with _ | _
      · rfl
      · exact absurd ((lor_mask_eq_iff _ _).mpr hb).symm hOld
    have hm := missing_decrease states p
      (bitIndex dir (drawModeOf (space.get_cell (toPos p)) mode)) hbit
    have hs := successors_length_le space p dir
      (modeAfter (space.get_cell (toPos p)) mode) (space.get_cell (toPos p))
    simp only [stateUpdate] at hm ⊢
    simp only [List.length_append, List.length_cons]
    omega

/-- src/analyze.rs `analyze_path`: seed the worklist with
`(ORIGIN, Right, Normal)` over a default-initialised state space of the
program's extent (`rows as u16` / `cols as u16` are the `% 65536`
reductions).  Returns the final cell states together with the ghost
update log. -/
def analyze_path (space : Space) : Space × List (Pos8 × Fin 8) :=
  analyzeAux space (Space.with_size (space.rows % 65536) (space.cols % 65536))
    [((0, 0), Direction.Right, Mode.Normal)] []

/-- Whether the `try_combine` accumulation runs through an entire digit
list without hitting the stop rule, starting from accumulator `num`. -/
def accumAll : Nat → List Nat → Bool
  | _, [] => true
  | num, b :: rest =>
      match tryCombine num (b - 48) with
      | some n => accumAll n rest
      | none => false

/-- A single-row space holding the given program bytes (cells outside the
row read as the default space), used for concrete test states. -/
def rowSpace (bytes : List Nat) : Space :=
  { cells := fun p => if p.y = 0 then bytes.getD p.x 32 else 32
    rows := 1
    cols := bytes.length }

/-- An interpreter state over a given space, stack and input, with the
cursor at the origin heading Right in Normal mode and empty output and
event log (the state `Interpreter::new` constructs, plus a chosen stack
and input). -/
def mkInterp (space : Space) (stack : List Int) (input : List Nat) : Interpreter :=
  { space := space
    cursor := Cursor.default
    stack := stack
    input := input
    output := []
    events := [] }

/-- Reduction by `wrap32` is the identity on values already in the `i32` range. -/
theorem wrap32_eq_self (z : Int) (h1 : -(2 ^ 31) ≤ z) (h2 : z < 2 ^ 31) : wrap32 z = z := by
  unfold wrap32
  omega

/-- C3: In a Space whose extent lies within the documented `u8`
coordinate bound, moving Left decrements `x` when `x > 0` and wraps
`x` to the extent value `cols` itself (not `cols - 1`) when `x = 0`,
leaving `y` unchanged; symmetrically moving Up from `y = 0` wraps `y` to
`rows`. -/
theorem C3_move_left_up_wrap (s : Space) (p : Position)
    (hc : s.cols < 256) (hr : s.rows < 256) :
    (p.x ≠ 0 → s.move_pos p Direction.Left = ⟨p.x - 1, p.y⟩)
    ∧ (p.x = 0 → s.move_pos p Direction.Left = ⟨s.cols, p.y⟩)
    ∧ (p.y = 0 → s.move_pos p Direction.Up = ⟨p.x, s.rows⟩) := by
  refine ⟨fun hx => ?_, fun hx => ?_, fun hy => ?_⟩
  · simp [Space.move_pos, hx, Nat.mod_eq_of_lt]
  · simp [Space.move_pos, hx, Nat.mod_eq_of_lt hc]
  · simp [Space.move_pos, hy, Nat.mod_eq_of_lt hr]

/-- Witness for C3 at a concrete space and position. -/
theorem C3_move_left_up_wrap_witness :
    (Space.with_size 3 5).move_pos ⟨0, 2⟩ Direction.Left = ⟨5, 2⟩
    ∧ (Space.with_size 3 5).move_pos ⟨4, 0⟩ Direction.Up = ⟨4, 3⟩ :=
  ⟨(C3_move_left_up_wrap (Space.with_size 3 5) ⟨0, 2⟩ (by decide) (by decide)).2.1 rfl,
   (C3_move_left_up_wrap (Space.with_size 3 5) ⟨4, 0⟩ (by decide) (by decide)).2.2 rfl⟩

/-- C9: evaluating `VirtualTerminal::delete` at the state the claim
includes — cursor 0, non-empty uncommitted buffer — hits the unchecked
`self.cursor -= 1` underflow: the operation does not complete. -/
theorem C9_delete_underflow_at_zero :
    VirtualTerminal.delete
      { display := [], newline_indices := [], available_input := []
        uncommitted := [97], cursor := 0, dirty := false } = none := by
  rfl

theorem baseNumber_append (ns : List Nat) (d0 : Nat) (dtail : List Nat)
    (hns : ∀ b ∈ ns, isDigitByte b = false) (hd0 : isDigitByte d0 = true) :
    ∀ i, baseNumber (ns ++ d0 :: dtail) i = some (i + ns.length + 1, d0 - 48, dtail) := by
  induction ns with
  | nil => intro i; simp [baseNumber, hd0]
  | cons b ns ih =>
      intro i
      have hb : isDigitByte b = false := hns b (List.mem_cons_self b ns)
      have ih2 := ih (fun c hc => hns c (List.mem_cons_of_mem b hc)) (i + 1)
      simp only [List.cons_append, baseNumber, hb, Bool.false_eq_true, if_false,
        List.append_eq, List.length_cons]
      have harith : i + 1 + ns.length + 1 = i + (ns.length + 1) + 1 := by omega
      rw [ih2, harith]

theorem numLoop_all_digits (dtail : List Nat) :
    ∀ num i off, (∀ b ∈ dtail, isDigitByte b = true) → accumAll num dtail = true →
      numLoop dtail i off num = none := by
  induction dtail with
  | nil => intro num i off _ _; rfl
  | cons b rest ih =>
      intro num i off hall hacc
      have hb : isDigitByte b = true := hall b (List.mem_cons_self b rest)
      unfold numLoop
      rw [hb]
      simp only [if_true]
      unfold accumAll at hacc
      rcases hcomb : tryCombine num (b - 48) with _ | n
      · rw [hcomb] at hacc; simp at hacc
      · rw [hcomb] at hacc
        simp only [hcomb]
        exact ih n (i + 1) (i + 1) (fun c hc => hall c (List.mem_cons_of_mem b hc)) hacc

/-- C6 (amended): `read_number` discards leading non-digits, accumulates
consecutive digits with the stop rule, and leaves the terminating
non-digit unconsumed (witnessed on `"abc12xyz"`); when the buffer ends in
digits with no non-digit terminator AND the accumulation never triggers
the stop rule, it reports `None` without consuming the digits (the
leading non-digits are consumed).  (When the stop rule does trigger, the
accumulated value is returned even without a terminator — see the
counterexample.) -/
theorem C6_read_number (ns : List Nat) (d0 : Nat) (dtail : List Nat)
    (hns : ∀ b ∈ ns, isDigitByte b = false)
    (hd0 : isDigitByte d0 = true)
    (hdt : ∀ b ∈ dtail, isDigitByte b = true)
    (hacc : accumAll (d0 - 48) dtail = true) :
    vtReadNumber [97, 98, 99, 49, 50, 120, 121, 122] = (some 12, [120, 121, 122])
    ∧ tryReadNumber (ns ++ d0 :: dtail) = Sum.inr ns.length
    ∧ vtReadNumber (ns ++ d0 :: dtail) = (none, d0 :: dtail) := by
  have htry : tryReadNumber (ns ++ d0 :: dtail) = Sum.inr ns.length := by
    unfold tryReadNumber
    rw [baseNumber_append ns d0 dtail hns hd0 0]
    simp only [numLoop_all_digits dtail (d0 - 48) (0 + ns.length + 1) (0 + ns.length + 1)
      hdt hacc]
    simp only [Sum.inr.injEq]
    omega
  refine ⟨by decide, htry, ?_⟩
  unfold vtReadNumber
  rw [htry]
  simp [List.drop_left]

/-- C6 counterexample: on the buffer `"999"`, which ends in digits with
no non-digit terminator, `read_number` does NOT return `None`: the stop
rule (running value 99 > 25) fires and it returns 99, consuming two of
the three digits. -/
theorem C6_counterexample :
    vtReadNumber [57, 57, 57] = (some 99, [57])
    ∧ (some 99, [57]) ≠ ((none : Option Nat), [57, 57, 57]) := by
  decide

/-- Witness for C6 on the unterminated buffer `"a12"`. -/
theorem C6_read_number_witness :
    tryReadNumber [97, 49, 50] = Sum.inr 1
    ∧ vtReadNumber [97, 49, 50] = (none, [49, 50]) := by
  have h := C6_read_number [97] 49 [50] (by decide) (by decide) (by decide) (by decide)
  exact ⟨h.2.1, h.2.2⟩

/-- C1 counterexample: executing `+` on stack top `200` over `100` pushes
`300`, not `(100 + 200) mod 256 = 44`: the interpreter's arithmetic does
not reduce modulo `2 ^ 8`. -/
theorem C1_counterexample :
    ((mkInterp (rowSpace [43]) [200, 100] []).step Direction.Right).map
        (fun r => (r.1, r.2.stack)) = some (Status.Completed, [300])
    ∧ (300 : Int) ≠ (100 + 200) % 256 := by
  exact ⟨rfl, by decide⟩

/-- C1 (amended): every arithmetic instruction computes with wrapping
semantics modulo `2 ^ 32` on the `i32` stack cells (not modulo `2 ^ 8`):
with `b` popped first and `a` second, the value pushed is
`wrap32 (a OP b)` (`/` and `%` are the Rust `i32` truncated division and
remainder, and panic on a zero divisor). -/
theorem C1_wrapping_mod_2_32 (i : Interpreter) (a b : Int) (rest : List Int) (rnd : Direction) :
    ((({ i with stack := b :: a :: rest } : Interpreter).dispatch_unquoted 43 rnd).map
        (fun r => (r.1, r.2.stack)) = some (Status.Completed, wrap32 (a + b) :: rest))
    ∧ ((({ i with stack := b :: a :: rest } : Interpreter).dispatch_unquoted 45 rnd).map
        (fun r => (r.1, r.2.stack)) = some (Status.Completed, wrap32 (a - b) :: rest))
    ∧ ((({ i with stack := b :: a :: rest } : Interpreter).dispatch_unquoted 42 rnd).map
        (fun r => (r.1, r.2.stack)) = some (Status.Completed, wrap32 (a * b) :: rest))
    ∧ (b ≠ 0 →
        (({ i with stack := b :: a :: rest } : Interpreter).dispatch_unquoted 47 rnd).map
        (fun r => (r.1, r.2.stack)) = some (Status.Completed, wrap32 (Int.tdiv a b) :: rest))
    ∧ (b ≠ 0 →
        (({ i with stack := b :: a :: rest } : Interpreter).dispatch_unquoted 37 rnd).map
        (fun r => (r.1, r.2.stack)) = some (Status.Completed, wrap32 (Int.tmod a b) :: rest)) := by
  refine ⟨rfl, rfl, rfl, fun hb => ?_, fun hb => ?_⟩ <;>
    simp [Interpreter.dispatch_unquoted, Interpreter.pop, Interpreter.push, hb]

/-- Witness for C1's amended statement at `a = 100`, `b = 200` under `/`. -/
theorem C1_wrapping_mod_2_32_witness :
    ((({ mkInterp (rowSpace [43]) [] [] with stack := 200 :: 100 :: [] } :
        Interpreter).dispatch_unquoted 47 Direction.Right).map
        (fun r => (r.1, r.2.stack)) = some (Status.Completed, wrap32 (Int.tdiv 100 200) :: [])) :=
  (C1_wrapping_mod_2_32 (mkInterp (rowSpace [43]) [] []) 100 200 [] Direction.Right).2.2.2.1
    (by decide)

/-- C4: for the binary operators the second pop is the left operand: with
`b` popped first and `a` second, `-` pushes `a - b`, `/` pushes `a / b`
(`i32` truncated division), `%` pushes `a % b` (`i32` remainder), and
the backtick comparison pushes 1 exactly when `a > b` (the range
hypotheses keep the wrapping reduction of C1 from firing, isolating the
operand order). -/
theorem C4_second_pop_is_left (i : Interpreter) (a b : Int) (rest : List Int) (rnd : Direction) :
    ((-(2 ^ 31) ≤ a - b ∧ a - b < 2 ^ 31) →
      (({ i with stack := b :: a :: rest } : Interpreter).dispatch_unquoted 45 rnd).map
        (fun r => (r.1, r.2.stack)) = some (Status.Completed, (a - b) :: rest))
    ∧ (b ≠ 0 → (-(2 ^ 31) ≤ Int.tdiv a b ∧ Int.tdiv a b < 2 ^ 31) →
      (({ i with stack := b :: a :: rest } : Interpreter).dispatch_unquoted 47 rnd).map
        (fun r => (r.1, r.2.stack)) = some (Status.Completed, Int.tdiv a b :: rest))
    ∧ (b ≠ 0 → (-(2 ^ 31) ≤ Int.tmod a b ∧ Int.tmod a b < 2 ^ 31) →
      (({ i with stack := b :: a :: rest } : Interpreter).dispatch_unquoted 37 rnd).map
        (fun r => (r.1, r.2.stack)) = some (Status.Completed, Int.tmod a b :: rest))
    ∧ ((({ i with stack := b :: a :: rest } : Interpreter).dispatch_unquoted 96 rnd).map
        (fun r => (r.1, r.2.stack))
          = some (Status.Completed, (if a > b then (1 : Int) else 0) :: rest)) := by
  refine ⟨fun hr => ?_, fun hb hr => ?_, fun hb hr => ?_, rfl⟩
  · simp [Interpreter.dispatch_unquoted, Interpreter.pop, Interpreter.push,
      wrap32_eq_self _ hr.1 hr.2]
  · simp [Interpreter.dispatch_unquoted, Interpreter.pop, Interpreter.push, hb,
      wrap32_eq_self _ hr.1 hr.2]
  · simp [Interpreter.dispatch_unquoted, Interpreter.pop, Interpreter.push, hb,
      wrap32_eq_self _ hr.1 hr.2]

/-- Witness for C4 at `a = 7`, `b = 2`. -/
theorem C4_second_pop_is_left_witness :
    ((({ mkInterp (rowSpace [45]) [] [] with stack := 2 :: 7 :: [] } :
        Interpreter).dispatch_unquoted 45 Direction.Right).map
        (fun r => (r.1, r.2.stack)) = some (Status.Completed, ((7 : Int) - 2) :: [])) :=
  (C4_second_pop_is_left (mkInterp (rowSpace [45]) [] []) 7 2 [] Direction.Right).1
    ⟨by norm_num, by norm_num⟩

/-- C10: a Quote-mode step on a byte other than the quote byte (34)
pushes that byte raw
(`self.stack.push`), emitting NO recorder event at all — in particular no
`Push` event — while the Normal-mode `push` helper always appends a
`Push` event; so an event log never contains `Push` events for
string-literal pushes. -/
theorem C10_quoted_push_unrecorded :
    (∀ (i : Interpreter) (cell : GridCell), cell ≠ 34 →
        (i.step_quoted cell).1 = Status.Completed
        ∧ (i.step_quoted cell).2.stack = Int.ofNat cell :: i.stack
        ∧ (i.step_quoted cell).2.events = i.events)
    ∧ (∀ (i : Interpreter) (c : StackCell),
        (i.push c).events = i.events ++ [Event.push c]
        ∧ (i.push c).stack = c :: i.stack) := by
  constructor
  · intro i cell hcell
    refine ⟨?_, ?_, ?_⟩ <;> simp [Interpreter.step_quoted, hcell, Interpreter.move_auto]
  · intro i c
    exact ⟨rfl, rfl⟩

/-- Witness for C10 at the byte `'H'` (72). -/
theorem C10_quoted_push_unrecorded_witness :
    ((mkInterp (rowSpace [72]) [] []).step_quoted 72).2.stack = [(72 : Int)]
    ∧ ((mkInterp (rowSpace [72]) [] []).step_quoted 72).2.events = [] := by
  have h := C10_quoted_push_unrecorded.1 (mkInterp (rowSpace [72]) [] []) 72 (by decide)
  exact ⟨h.2.1, h.2.2⟩

/-- The Normal-mode opcodes that pop from the stack. -/
def poppingOpcodes : List Nat :=
  [43, 45, 42, 47, 37, 33, 96, 95, 124, 58, 92, 36, 46, 44, 103, 112]

/-- C7: popping from an empty stack yields 0 and emits a `PopBottom`
recorder event instead of failing (the stack, a list, stays empty — its
length cannot go negative), and no popping instruction's dispatch ever
returns an `Error` status (errors arise only from invalid opcodes and
space-skipping loops, neither of which pops). -/
theorem C7_pop_empty_nonfatal :
    (∀ i : Interpreter, i.stack = [] →
        (i.pop).1 = 0
        ∧ (i.pop).2.events = i.events ++ [Event.popBottom]
        ∧ (i.pop).2.stack = [])
    ∧ (∀ cell ∈ poppingOpcodes, ∀ (i : Interpreter) (rnd : Direction)
        (e : InterpreterError),
        (i.dispatch_unquoted cell rnd).map (fun r => r.1) ≠ some (Status.Error e)) := by
  constructor
  · intro i h
    refine ⟨?_, ?_, ?_⟩ <;> simp [Interpreter.pop, h]
  · intro cell hmem i rnd e
    fin_cases hmem <;>
      simp only [Interpreter.dispatch_unquoted] <;>
      norm_num <;> simp

/-- Witness for C7: `$` on an empty stack. -/
theorem C7_pop_empty_nonfatal_witness :
    ((mkInterp (rowSpace [36]) [] []).pop).1 = 0
    ∧ ((mkInterp (rowSpace [36]) [] []).dispatch_unquoted 36 Direction.Right).map
        (fun r => r.1) ≠ some (Status.Error InterpreterError.InfiniteLoop) :=
  ⟨(C7_pop_empty_nonfatal.1 (mkInterp (rowSpace [36]) [] []) rfl).1,
   C7_pop_empty_nonfatal.2 36 (by decide) (mkInterp (rowSpace [36]) [] [])
     Direction.Right InterpreterError.InfiniteLoop⟩

/-- C2 counterexample: with the one-instruction program `@` and the
controller in `Running` with a step due, the interpreter step returns
`Terminated`, yet after `tick()` the controller's state is still
`Running` — `tick` discards the status, and the `State` type has no
`Halted` member for it to transition to. -/
theorem C2_counterexample :
    ((mkInterp (rowSpace [64]) [] []).step Direction.Right).map (fun r => r.1)
        = some Status.Terminated
    ∧ (Debugger.tick
        { interpreter := mkInterp (rowSpace [64]) [] []
          breakpoints := []
          state := DebuggerState.Running
          ticks_per_step := 0
          ticks_since_step := 0 } Direction.Right).map (fun r => r.2.state)
        = some DebuggerState.Running :=
  ⟨rfl, rfl⟩

/-- C2 (amended): the debugger controller's run-state type consists of
`Paused`, `Stepping(n)` and `Running` only — there is no `Halted` state —
and `tick()` discards the status returned by `interpreter.step()`: from
`Running`, absent a breakpoint hit, the state after `tick()` is still
`Running` whatever the step returned (`Terminated` and `Error`
included). -/
theorem C2_no_halted_transition :
    (∀ s : DebuggerState, s = DebuggerState.Paused
        ∨ (∃ n, s = DebuggerState.Stepping n) ∨ s = DebuggerState.Running)
    ∧ (∀ (d : Debugger) (rnd : Direction) (b : Bool) (d' : Debugger),
        d.state = DebuggerState.Running →
        d.breakpoints.contains d.interpreter.cursor.pos = false →
        d.tick rnd = some (b, d') → d'.state = DebuggerState.Running) := by
  constructor
  · intro s
    cases s with
    | Paused => exact Or.inl rfl
    | Stepping n => exact Or.inr (Or.inl ⟨n, rfl⟩)
    | Running => exact Or.inr (Or.inr rfl)
  · intro d rnd b d' hstate hbp htick
    simp only [Debugger.tick, hstate, hbp] at htick
    by_cases htime : d.ticks_since_step + 1 > d.ticks_per_step
    · rcases hstep : d.interpreter.step rnd with _ | p
      · simp [htime, hstep] at htick
      · simp [htime, hstep] at htick
        rcases htick with ⟨-, h2⟩
        rw [← h2]
    · simp [htime] at htick
      rcases htick with ⟨-, h2⟩
      rw [← h2]

/-- Witness for C2's amended statement: a `Running` debugger over the
program `0` steps and stays `Running`. -/
theorem C2_no_halted_transition_witness :
    (Debugger.tick
      { interpreter := mkInterp (rowSpace [48]) [] []
        breakpoints := []
        state := DebuggerState.Running
        ticks_per_step := 0
        ticks_since_step := 0 } Direction.Right).map (fun r => r.2.state)
      = some DebuggerState.Running := by
  have hsome : (Debugger.tick
      { interpreter := mkInterp (rowSpace [48]) [] []
        breakpoints := []
        state := DebuggerState.Running
        ticks_per_step := 0
        ticks_since_step := 0 } Direction.Right).isSome = true := rfl
  rcases htick : Debugger.tick
      { interpreter := mkInterp (rowSpace [48]) [] []
        breakpoints := []
        state := DebuggerState.Running
        ticks_per_step := 0
        ticks_since_step := 0 } Direction.Right with _ | r
  · rw [htick] at hsome
    simp at hsome
  · simp only [Option.map]
    have h2 := C2_no_halted_transition.2
      { interpreter := mkInterp (rowSpace [48]) [] []
        breakpoints := []
        state := DebuggerState.Running
        ticks_per_step := 0
        ticks_since_step := 0 } Direction.Right r.1 r.2 rfl rfl
    simp only [h2 htick]

theorem pop_cursor (i : Interpreter) : (i.pop).2.cursor = i.cursor := by
  cases h : i.stack <;> simp [Interpreter.pop, h]

theorem pop_space (i : Interpreter) : (i.pop).2.space = i.space := by
  cases h : i.stack <;> simp [Interpreter.pop, h]

theorem pop_input (i : Interpreter) : (i.pop).2.input = i.input := by
  cases h : i.stack <;> simp [Interpreter.pop, h]

theorem push_cursor (i : Interpreter) (c : StackCell) : (i.push c).cursor = i.cursor := rfl

theorem push_space (i : Interpreter) (c : StackCell) : (i.push c).space = i.space := rfl

theorem put_cursor (i : Interpreter) (pos : Position) (c : GridCell) :
    (i.put pos c).cursor = i.cursor := rfl

set_option maxHeartbeats 4000000 in
/-- Frame facts about the Normal-mode dispatch: a `Waiting` outcome comes
only from `&`/`~` and leaves the interpreter untouched, `Terminated` only
from `@` likewise, and every `Completed` outcome other than `#` leaves
the cursor position unchanged (the auto-advance happens after the
dispatch). -/
theorem dispatch_frame (i : Interpreter) (cell : Nat) (rnd : Direction) (st : Status)
    (i' : Interpreter) (hstep : i.dispatch_unquoted cell rnd = some (st, i')) :
    (st = Status.Waiting → i' = i ∧ (cell = 38 ∨ cell = 126))
    ∧ (st = Status.Terminated → i' = i ∧ cell = 64)
    ∧ (st = Status.Completed → cell ≠ 35 → i'.cursor.pos = i.cursor.pos) := by
  by_cases hmem : cell ∈ ([43, 45, 42, 47, 37, 33, 96, 62, 60, 94, 118, 63, 95, 124, 34, 58, 92, 36, 46, 44, 35, 103, 112, 38, 126, 64, 48, 49, 50, 51, 52, 53, 54, 55, 56, 57, 32] : List Nat)
  · fin_cases hmem <;>
    · unfold Interpreter.dispatch_unquoted at hstep
      simp only [Nat.reduceEqDiff, reduceIte] at hstep
      try split at hstep
      all_goals try exact Option.noConfusion hstep
      all_goals injection hstep with hpair
      all_goals injection hpair with h1 h2
      all_goals subst h1
      all_goals subst h2
      all_goals refine ⟨fun hw => ?_, fun ht => ?_, fun hc hne => ?_⟩
      all_goals
        first
        | exact ⟨rfl, Or.inl rfl⟩
        | exact ⟨rfl, Or.inr rfl⟩
        | exact ⟨rfl, rfl⟩
        | cases hw
        | cases ht
        | exact absurd rfl hne
        | simp [pop_cursor, push_cursor, put_cursor]
  · obtain ⟨k1, k2, k3, k4, k5, k6, k7, k8, k9, k10, k11, k12, k13, k14, k15, k16, k17, k18, k19, k20, k21, k22, k23, k24, k25, k26, k27, k28, k29, k30, k31, k32, k33, k34, k35, k36, k37⟩ :
        cell ≠ 43 ∧ cell ≠ 45 ∧ cell ≠ 42 ∧ cell ≠ 47 ∧ cell ≠ 37 ∧ cell ≠ 33 ∧ cell ≠ 96
        ∧ cell ≠ 62 ∧ cell ≠ 60 ∧ cell ≠ 94 ∧ cell ≠ 118 ∧ cell ≠ 63 ∧ cell ≠ 95
        ∧ cell ≠ 124 ∧ cell ≠ 34 ∧ cell ≠ 58 ∧ cell ≠ 92 ∧ cell ≠ 36 ∧ cell ≠ 46
        ∧ cell ≠ 44 ∧ cell ≠ 35 ∧ cell ≠ 103 ∧ cell ≠ 112 ∧ cell ≠ 38 ∧ cell ≠ 126
        ∧ cell ≠ 64 ∧ cell ≠ 48 ∧ cell ≠ 49 ∧ cell ≠ 50 ∧ cell ≠ 51 ∧ cell ≠ 52
        ∧ cell ≠ 53 ∧ cell ≠ 54 ∧ cell ≠ 55 ∧ cell ≠ 56 ∧ cell ≠ 57 ∧ cell ≠ 32 := by
      simpa [not_or] using hmem
    unfold Interpreter.dispatch_unquoted at hstep
    rw [if_neg k1, if_neg k2, if_neg k3, if_neg k4, if_neg k5, if_neg k6, if_neg k7, if_neg k8, if_neg k9, if_neg k10, if_neg k11, if_neg k12, if_neg k13, if_neg k14, if_neg k15, if_neg k16, if_neg k17, if_neg k18, if_neg k19, if_neg k20, if_neg k21, if_neg k22, if_neg k23, if_neg k24, if_neg k25, if_neg k26, if_neg k27, if_neg k28, if_neg k29, if_neg k30, if_neg k31, if_neg k32, if_neg k33, if_neg k34, if_neg k35, if_neg k36, if_neg k37] at hstep
    injection hstep with hpair
    injection hpair with h1 h2
    subst h1
    subst h2
    refine ⟨fun hw => ?_, fun ht => ?_, fun hc hne => ?_⟩
    · cases hw
    · cases ht
    · cases hc

theorem skipSpacesAux_fst (f : Nat) : ∀ (i : Interpreter) (start : Position) (st' : Status),
    (skipSpacesAux f i start).1 = some st' →
    st' = Status.Error InterpreterError.InfiniteLoop := by
  induction f with
  | zero =>
      intro i start st' h
      simp only [skipSpacesAux, Option.some.injEq] at h
      exact h.symm
  | succ f ih =>
      intro i start st' h
      unfold skipSpacesAux at h
      by_cases hc : i.space.get_cell i.cursor.pos ≠ defaultCell
      · simp [hc] at h
      · simp only [hc, if_pos, if_neg, ite_not] at h
        by_cases hs : (i.move_auto).cursor.pos = start
        · simp [hs] at h
          exact h.symm
        · simp [hs] at h
          exact ih _ _ _ h

theorem skipAux_nonspace (f : Nat) (i : Interpreter) (start : Position)
    (h : i.space.get_cell i.cursor.pos ≠ defaultCell) :
    skipSpacesAux (f + 1) i start = (none, i) := by
  unfold skipSpacesAux
  simp [h]

theorem skip_spaces_nonspace (i : Interpreter)
    (h : i.space.get_cell i.cursor.pos ≠ defaultCell) :
    i.skip_spaces = (none, i) :=
  skipAux_nonspace 65536 i i.cursor.pos h
theorem step_completed_advance (i : Interpreter) (cell : Nat) (rnd : Direction) (i' : Interpreter)
    (hne : cell ≠ 35) (hstep : i.step_unquoted cell rnd = some (Status.Completed, i')) :
    i'.cursor.pos = i'.space.move_pos i.cursor.pos i'.cursor.dir := by
  unfold Interpreter.step_unquoted at hstep
  rcases hd : i.dispatch_unquoted cell rnd with _ | ⟨st0, i2⟩
  · rw [hd] at hstep
    cases hstep
  · rw [hd] at hstep
    simp only [Option.some.injEq, Prod.mk.injEq] at hstep
    obtain ⟨h1, h2⟩ := hstep
    subst h1
    simp only [if_pos] at h2
    subst h2
    have hframe := (dispatch_frame i cell rnd Status.Completed i2 hd).2.2 rfl hne
    simp [Interpreter.move_auto, hframe]

theorem step_tail (X : Status × Interpreter) (st : Status) (i' : Interpreter)
    (h : (match (if X.2.cursor.mode = Mode.Normal then X.2.skip_spaces else (none, X.2)) with
          | (some stE, i3) => some (stE, i3)
          | (none, i3) =>
              if X.1 = Status.Waiting then
                some (X.1, { i3 with events := i3.events ++ [Event.rollbackStep] })
              else
                some (X.1, { i3 with events := i3.events ++ [Event.commitStep] })) = some (st, i'))
    (hor : st = Status.Waiting ∨ st = Status.Terminated) :
    st = X.1
    ∧ (if X.2.cursor.mode = Mode.Normal then X.2.skip_spaces else (none, X.2)).1 = none
    ∧ i'.cursor
      = ((if X.2.cursor.mode = Mode.Normal then X.2.skip_spaces else (none, X.2)).2).cursor := by
  rcases hsk : (if X.2.cursor.mode = Mode.Normal then X.2.skip_spaces else (none, X.2))
    with ⟨o, i3⟩
  rw [hsk] at h
  cases o with
  | some stE =>
      simp only [Option.some.injEq, Prod.mk.injEq] at h
      obtain ⟨h1, h2⟩ := h
      have hE : stE = Status.Error InterpreterError.InfiniteLoop := by
        by_cases hmode : X.2.cursor.mode = Mode.Normal
        · rw [if_pos hmode] at hsk
          have hfst : (skipSpacesAux 65537 X.2 X.2.cursor.pos).1 = some stE := by
            unfold Interpreter.skip_spaces at hsk
            rw [hsk]
          exact skipSpacesAux_fst 65537 X.2 X.2.cursor.pos stE hfst
        · rw [if_neg hmode] at hsk
          cases hsk
      rcases hor with rfl | rfl <;> (subst hE; cases h1)
  | none =>
      have h' : (if X.1 = Status.Waiting then
            some (X.1, { i3 with events := i3.events ++ [Event.rollbackStep] })
          else some (X.1, { i3 with events := i3.events ++ [Event.commitStep] }))
          = some (st, i') := h
      split at h' <;>
        (simp only [Option.some.injEq, Prod.mk.injEq] at h'
         obtain ⟨h1, h2⟩ := h'
         subst h2
         exact ⟨h1.symm, rfl, rfl⟩)

theorem step_waiting_terminated_fixed (i : Interpreter) (rnd : Direction) (st : Status) (i' : Interpreter)
    (hstep : i.step rnd = some (st, i'))
    (hor : st = Status.Waiting ∨ st = Status.Terminated) :
    i'.cursor.pos = i.cursor.pos := by
  unfold Interpreter.step at hstep
  rcases hm : i.cursor.mode with _ | _
  · simp only [hm] at hstep
    have htail := step_tail (({ i with events := i.events ++ [Event.startStep i.cursor.pos (i.space.get_cell i.cursor.pos)] } : Interpreter).step_quoted (i.space.get_cell i.cursor.pos)) st i' hstep hor
    have hq : (({ i with events := i.events ++ [Event.startStep i.cursor.pos (i.space.get_cell i.cursor.pos)] } : Interpreter).step_quoted (i.space.get_cell i.cursor.pos)).1 = Status.Completed := by
      unfold Interpreter.step_quoted
      split_ifs <;> rfl
    rcases hor with rfl | rfl <;> (rw [hq] at htail; cases htail.1)
  · simp only [hm] at hstep
    rcases hu : (({ i with events := i.events ++ [Event.startStep i.cursor.pos (i.space.get_cell i.cursor.pos)] } : Interpreter)).step_unquoted (i.space.get_cell i.cursor.pos) rnd with _ | ⟨st0, i2⟩
    · rw [hu] at hstep
      cases hstep
    · rw [hu] at hstep
      obtain ⟨hst, hskn, hcur⟩ := step_tail (st0, i2) st i' hstep hor
      have hst0 : st0 = Status.Waiting ∨ st0 = Status.Terminated := by
        rcases hor with rfl | rfl
        · exact Or.inl hst.symm
        · exact Or.inr hst.symm
      unfold Interpreter.step_unquoted at hu
      rcases hdd : (({ i with events := i.events ++ [Event.startStep i.cursor.pos (i.space.get_cell i.cursor.pos)] } : Interpreter)).dispatch_unquoted (i.space.get_cell i.cursor.pos) rnd with _ | ⟨st1, i4⟩
      · rw [hdd] at hu
        cases hu
      · rw [hdd] at hu
        simp only [Option.some.injEq, Prod.mk.injEq] at hu
        obtain ⟨h4, h5⟩ := hu
        subst h4
        have hnc : st1 ≠ Status.Completed := by
          rcases hst0 with h | h <;> (rw [h]; simp)
        rw [if_neg hnc] at h5
        have hframe := dispatch_frame _ _ _ _ _ hdd
        have hi4 : i4 = ({ i with events := i.events ++ [Event.startStep i.cursor.pos (i.space.get_cell i.cursor.pos)] } : Interpreter)
            ∧ (i.space.get_cell i.cursor.pos = 38 ∨ i.space.get_cell i.cursor.pos = 126
               ∨ i.space.get_cell i.cursor.pos = 64) := by
          rcases hst0 with h | h
          · obtain ⟨ha, hb⟩ := hframe.1 h
            rcases hb with hb | hb
            · exact ⟨ha, Or.inl hb⟩
            · exact ⟨ha, Or.inr (Or.inl hb)⟩
          · obtain ⟨ha, hb⟩ := hframe.2.1 h
            exact ⟨ha, Or.inr (Or.inr hb)⟩
        rw [hi4.1] at h5
        subst h5
        have hnsp : (({ i with events := i.events ++ [Event.startStep i.cursor.pos (i.space.get_cell i.cursor.pos)] } : Interpreter)).space.get_cell (({ i with events := i.events ++ [Event.startStep i.cursor.pos (i.space.get_cell i.cursor.pos)] } : Interpreter)).cursor.pos ≠ defaultCell := by
          show i.space.get_cell i.cursor.pos ≠ defaultCell
          rcases hi4.2 with h | h | h <;> rw [h] <;> decide
        have hskip := skip_spaces_nonspace _ hnsp
        rw [show (({ i with events := i.events ++ [Event.startStep i.cursor.pos (i.space.get_cell i.cursor.pos)] } : Interpreter)).cursor.mode = i.cursor.mode from rfl, hm] at hcur
        rw [if_pos rfl] at hcur
        rw [hskip] at hcur
        rw [hcur]

/-- C5 (amended): if `step()` returns `Waiting` or `Terminated` the
cursor position is unchanged (the instruction will be retried at the same
position); and for every Normal-mode instruction other than `#` whose
dispatch completes, the position after the instruction (before
space-skipping) is `move_pos` of the prior position in the (possibly
updated) direction.  Invalid opcodes return `Error` and also leave the
cursor in place (see the counterexample), so they fall under neither
clause. -/
theorem C5_cursor_rules :
    (∀ (i : Interpreter) (rnd : Direction) (st : Status) (i' : Interpreter),
        i.step rnd = some (st, i') → st = Status.Waiting ∨ st = Status.Terminated →
        i'.cursor.pos = i.cursor.pos)
    ∧ (∀ (i : Interpreter) (cell : Nat) (rnd : Direction) (i' : Interpreter),
        cell ≠ 35 → i.step_unquoted cell rnd = some (Status.Completed, i') →
        i'.cursor.pos = i'.space.move_pos i.cursor.pos i'.cursor.dir) :=
  ⟨fun i rnd st i' h ho => step_waiting_terminated_fixed i rnd st i' h ho,
   fun i cell rnd i' hne h => step_completed_advance i cell rnd i' hne h⟩

/-- C5 counterexample: a byte that is not an instruction (here `a`, 97)
dispatches to `Error(InvalidOpcode)` and leaves the cursor in place, so
the advance-by-move rule for every non-`#` Normal-mode byte fails as
universally stated: the cursor stays at the origin instead of moving to
`(1, 0)`. -/
theorem C5_counterexample :
    ((mkInterp (rowSpace [97, 64]) [] []).step_unquoted 97 Direction.Right).map
        (fun r => (r.1, r.2.cursor.pos))
      = some (Status.Error (InterpreterError.InvalidOpcode 97), Position.ORIGIN)
    ∧ (rowSpace [97, 64]).move_pos Position.ORIGIN Direction.Right = ⟨1, 0⟩
    ∧ Position.ORIGIN ≠ (⟨1, 0⟩ : Position) :=
  ⟨rfl, rfl, by decide⟩

/-- Witness for C5 on the program `&` with empty input: the step waits
and the cursor stays at the origin. -/
theorem C5_cursor_rules_witness :
    ((mkInterp (rowSpace [38]) [] []).step Direction.Right).map
        (fun r => (r.1, r.2.cursor.pos)) = some (Status.Waiting, Position.ORIGIN) := by
  have hfst : ((mkInterp (rowSpace [38]) [] []).step Direction.Right).map (fun r => r.1)
      = some Status.Waiting := rfl
  rcases hstep : (mkInterp (rowSpace [38]) [] []).step Direction.Right with _ | ⟨st, i'⟩
  · rw [hstep] at hfst
    cases hfst
  · rw [hstep] at hfst
    simp only [Option.map_some', Option.some.injEq] at hfst
    have hpos := C5_cursor_rules.1 (mkInterp (rowSpace [38]) [] []) Direction.Right st i'
      hstep (Or.inl hfst)
    simp only [Option.map_some', Option.some.injEq, Prod.mk.injEq]
    exact ⟨hfst, hpos⟩

theorem testBit_lor_mono (s m : Nat) (j : Nat) (h : s.testBit j = true) :
    (s ||| m).testBit j = true := by
  simp [Nat.testBit_or, h]

theorem testBit_lor_self (s : Nat) (k : Nat) : (s ||| 2 ^ k).testBit k = true := by
  simp [Nat.testBit_or, Nat.testBit_two_pow_self]

theorem analyzeAux_drop (space states : Space) (rest : List (Pos8 × Direction × Mode))
    (log : List (Pos8 × Fin 8)) (p : Pos8) (dir : Direction) (mode : Mode)
    (h : states.get_cell (toPos p)
        = stateUpdate (states.get_cell (toPos p)) dir
            (drawModeOf (space.get_cell (toPos p)) mode)) :
    analyzeAux space states ((p, dir, mode) :: rest) log
      = analyzeAux space states rest log := by
  rw [analyzeAux.eq_def]
  exact dif_pos h

theorem analyzeAux_update (space states : Space) (rest : List (Pos8 × Direction × Mode))
    (log : List (Pos8 × Fin 8)) (p : Pos8) (dir : Direction) (mode : Mode)
    (h : ¬ states.get_cell (toPos p)
        = stateUpdate (states.get_cell (toPos p)) dir
            (drawModeOf (space.get_cell (toPos p)) mode)) :
    analyzeAux space states ((p, dir, mode) :: rest) log
      = analyzeAux space
          (states.set_cell (toPos p)
            (stateUpdate (states.get_cell (toPos p)) dir
              (drawModeOf (space.get_cell (toPos p)) mode)))
          (rest ++ successors space p dir (modeAfter (space.get_cell (toPos p)) mode)
            (space.get_cell (toPos p)))
          (log ++ [(p, bitIndex dir (drawModeOf (space.get_cell (toPos p)) mode))]) := by
  rw [analyzeAux.eq_def]
  exact dif_neg h

theorem nodup_append_singleton {α : Type} (l : List α) (a : α)
    (hl : l.Nodup) (ha : a ∉ l) : (l ++ [a]).Nodup := by
  rw [List.nodup_append]
  exact ⟨hl, List.nodup_singleton a, by simp [List.disjoint_left, ha]⟩

/-- Along the analyzer loop, the ghost update log stays duplicate-free:
every logged `(position, bit)` pair is set in the current state space,
and a new update requires its bit to be unset. -/
theorem analyzeAux_nodup : ∀ (n : Nat) (space states : Space)
    (queue : List (Pos8 × Direction × Mode)) (log : List (Pos8 × Fin 8)),
    5 * missingBits states + queue.length ≤ n →
    log.Nodup →
    (∀ e ∈ log, (states.get_cell (toPos e.1)).testBit e.2.val = true) →
    (analyzeAux space states queue log).2.Nodup := by
  intro n
  induction n with
  | zero =>
      intro space states queue log hm hn hs
      cases queue with
      | nil =>
          rw [analyzeAux.eq_def]
          exact hn
      | cons a l =>
          simp only [List.length_cons] at hm
          omega
  | succ n ih =>
      intro space states queue log hm hn hs
      match queue with
      | [] =>
          rw [analyzeAux.eq_def]
          exact hn
      | (p, dir, mode) :: rest =>
          by_cases h : states.get_cell (toPos p)
              = stateUpdate (states.get_cell (toPos p)) dir
                  (drawModeOf (space.get_cell (toPos p)) mode)
          · rw [analyzeAux_drop space states rest log p dir mode h]
            refine ih space states rest log ?_ hn hs
            simp only [List.length_cons] at hm
            omega
          · rw [analyzeAux_update space states rest log p dir mode h]
            have hbit : (states.get_cell (toPos p)).testBit
                (bitIndex dir (drawModeOf (space.get_cell (toPos p)) mode)).val = false := by
              rcases hb : (states.get_cell (toPos p)).testBit
                  (bitIndex dir (drawModeOf (space.get_cell (toPos p)) mode)).val with _ | _
              · rfl
              · exact absurd ((lor_mask_eq_iff _ _).mpr hb).symm h
            have hdec := missing_decrease states p
              (bitIndex dir (drawModeOf (space.get_cell (toPos p)) mode)) hbit
            have hnotin : (p, bitIndex dir (drawModeOf (space.get_cell (toPos p)) mode)) ∉ log := by
              intro hin
              have := hs _ hin
              rw [hbit] at this
              cases this
            refine ih space _ _ _ ?_ ?_ ?_
            · have hsl := successors_length_le space p dir
                (modeAfter (space.get_cell (toPos p)) mode) (space.get_cell (toPos p))
              simp only [List.length_append, List.length_cons] at hm ⊢
              simp only [stateUpdate] at hdec ⊢
              omega
            · exact nodup_append_singleton log _ hn hnotin
            · intro e he
              rcases List.mem_append.1 he with he | he
              · have hold := hs e he
                by_cases hq : e.1 = p
                · rw [hq, get_set_same]
                  rw [hq] at hold
                  exact testBit_lor_mono _ _ _ hold
                · rw [get_set_other _ _ _ _ (fun hc => hq (toPos_inj hc))]
                  exact hold
              · simp only [List.mem_singleton] at he
                subst he
                rw [get_set_same]
                exact testBit_lor_self _ _

/-- A duplicate-free list of `(position, bit)` pairs with 8 possible bits
has length at most 8 times the number of distinct positions. -/
theorem nodup_pairs_length_le (l : List (Pos8 × Fin 8)) (h : l.Nodup) :
    l.length ≤ 8 * (l.map Prod.fst).toFinset.card := by
  classical
  have h1 : l.toFinset.card = l.length := List.toFinset_card_of_nodup h
  have h2 : l.toFinset ⊆ (l.map Prod.fst).toFinset ×ˢ (Finset.univ : Finset (Fin 8)) := by
    intro x hx
    rw [List.mem_toFinset] at hx
    rw [Finset.mem_product]
    exact ⟨List.mem_toFinset.2 (List.mem_map_of_mem Prod.fst hx), Finset.mem_univ _⟩
  have h3 := Finset.card_le_card h2
  rw [Finset.card_product] at h3
  simp only [Finset.card_univ, Fintype.card_fin] at h3
  omega

/-- C8: the path analyzer terminates (`analyzeAux` is a total function,
by the strictly decreasing measure on missing flags), each of the 8
`(direction × mode)` bits of a cell's state is set at most once — so the
number of state updates is at most 8 × the number of distinct cells
updated — and a dequeued tuple that sets no new bit produces no
successors (the loop continues on the rest of the queue unchanged). -/
theorem C8_analyzer_work_bound :
    (∀ space : Space,
        ((analyze_path space).2).length
          ≤ 8 * (((analyze_path space).2).map Prod.fst).toFinset.card)
    ∧ (∀ (space states : Space) (rest : List (Pos8 × Direction × Mode))
        (log : List (Pos8 × Fin 8)) (p : Pos8) (dir : Direction) (mode : Mode),
        states.get_cell (toPos p)
          = stateUpdate (states.get_cell (toPos p)) dir
              (drawModeOf (space.get_cell (toPos p)) mode) →
        analyzeAux space states ((p, dir, mode) :: rest) log
          = analyzeAux space states rest log) := by
  constructor
  · intro space
    have hnodup := analyzeAux_nodup
      (5 * missingBits (Space.with_size (space.rows % 65536) (space.cols % 65536)) + 1)
      space (Space.with_size (space.rows % 65536) (space.cols % 65536))
      [((0, 0), Direction.Right, Mode.Normal)] []
      (by simp) List.nodup_nil (by intro e he; cases he)
    exact nodup_pairs_length_le _ hnodup
  · exact fun space states rest log p dir mode h =>
      analyzeAux_drop space states rest log p dir mode h

/-- Witness for C8: over the program `@`, a dequeued tuple whose
`(Right, Normal)` bit is already set (state `128`) is dropped without
successors, and the bound holds for the program's own analysis. -/
theorem C8_analyzer_work_bound_witness :
    ((analyze_path (rowSpace [64])).2).length
        ≤ 8 * (((analyze_path (rowSpace [64])).2).map Prod.fst).toFinset.card
    ∧ analyzeAux (rowSpace [64]) ((Space.with_size 1 1).set_cell Position.ORIGIN 128)
        [(((0 : Fin 256), (0 : Fin 256)), Direction.Right, Mode.Normal)] []
      = analyzeAux (rowSpace [64]) ((Space.with_size 1 1).set_cell Position.ORIGIN 128) [] [] :=
  ⟨C8_analyzer_work_bound.1 (rowSpace [64]),
   C8_analyzer_work_bound.2 (rowSpace [64]) _ [] [] ((0 : Fin 256), (0 : Fin 256))
     Direction.Right Mode.Normal (by decide)⟩
